import Mathlib

/-!
Verification development for the scrapbox_mcp write path
(`internal/scrapbox/websocket.go`): the diff-to-operations engine,
the line-identifier generator, the Socket.IO packet framing and
acknowledgement handling, and the create-vs-patch dispatch.

Shallow embedding conventions:
* Go slices become Lean lists; Go strings become Lean `String`
  (the relevant strings are ASCII, so Go's byte indexing agrees with
  character indexing).
* `time.Now().Unix()` and `crypto/rand` draws are passed in as explicit
  parameters (`now : Nat`, `randomBytes : List (Fin 256)`).
* `createLineId` calls made during one diff are modelled by a parameter
  `mint : Nat → String` giving the identifier returned by the k-th call.
* `encoding/json.Unmarshal` (an external library call whose result the
  code merely branches on) is a parameter of type `Unmarshal`.
-/

namespace ScrapboxMCP

/-- One line of a Scrapbox page: stable identifier plus text
(`type Line struct` — only the fields the write path reads). -/
structure Line where
  id : String
  text : String
  deriving Repr, DecidableEq

instance : Inhabited Line := ⟨⟨"", ""⟩⟩

/-- A Scrapbox page (`type Page struct` — only the fields the write path
reads: `ID`, `CommitID`, `Lines`). -/
structure Page where
  id : String
  commitID : String
  lines : List Line
  deriving Repr, DecidableEq

/-- One element of the `changes` array built by `diffToChanges`: an
`_update` entry (target id, new text), a `_delete` entry (target id,
`lines: -1`), or an `_insert` entry (after-id, minted id, text). -/
inductive Change where
  | update (target : String) (newText : String)
  | delete (target : String)
  | insert (after : String) (newId : String) (text : String)
  deriving Repr, DecidableEq

/-- `true` exactly on `_update` changes. -/
def Change.isUpdate : Change → Bool
  | .update _ _ => true
  | _ => false

/-- `true` exactly on `_delete` changes. -/
def Change.isDelete : Change → Bool
  | .delete _ => true
  | _ => false

/-- `true` exactly on `_insert` changes. -/
def Change.isInsert : Change → Bool
  | .insert _ _ _ => true
  | _ => false

/-- First pass of `diffToChanges` (websocket.go lines 210-219): for each
index `i` below `min oldLen newLen`, in ascending order, emit an update
carrying `oldLines[i].ID` and `newTexts[i]` when the texts differ. -/
def updatePass : List Line → List String → List Change
  | o :: os, t :: ts =>
      (if o.text ≠ t then [Change.update o.id t] else []) ++ updatePass os ts
  | _, _ => []

/-- Second pass of `diffToChanges` (websocket.go lines 222-227): the Go
loop `for i := oldLen - 1; i >= newLen; i--` deletes `oldLines[i].ID`,
i.e. it deletes the ids of `oldLines.drop newLen` in reverse order. -/
def deletePass (oldLines : List Line) (newLen : Nat) : List Change :=
  ((oldLines.drop newLen).reverse).map (fun l => Change.delete l.id)

/-- Third pass of `diffToChanges` (websocket.go lines 236-247): thread the
chain anchor `lastLineID`, minting one identifier per extra new text;
`k` counts the `createLineId` calls made so far. -/
def insertPass (mint : Nat → String) : String → Nat → List String → List Change
  | _, _, [] => []
  | anchor, k, t :: ts =>
      Change.insert anchor (mint k) t :: insertPass mint (mint k) (k + 1) ts

/-- `lastLineID` as initialised in websocket.go lines 193-196: the id of
the last old line, or the zero-value string if the page was empty. -/
def lastLineID (oldLines : List Line) : String :=
  match oldLines.getLast? with
  | some l => l.id
  | none => ""

/-- `diffToChanges(oldLines, newTexts, userID)` (websocket.go lines
185-251): updates at shared indices, then deletes of extra old lines
(highest index first), then chained inserts of extra new texts. -/
def diffToChanges (oldLines : List Line) (newTexts : List String)
    (mint : Nat → String) : List Change :=
  updatePass oldLines newTexts
    ++ deletePass oldLines newTexts.length
    ++ (if oldLines.length < newTexts.length then
          insertPass mint (lastLineID oldLines) 0 (newTexts.drop oldLines.length)
        else [])

/-- One element of a commit's `changes` array: either a diff operation
(`PatchPage`) or one of the `title` / `lines` snapshot entries that
`WebSocketClient.CreatePage` builds. -/
inductive ChangeEntry where
  | op (c : Change)
  | titleEntry (title : String)
  | linesEntry (lines : List (String × String))
  deriving Repr, DecidableEq

/-- The commit object placed in the `data` field of a `socket.io-request`
(websocket.go lines 271-280 and 405-414). The always-null `cursor` field
is omitted; `parentId` is `none` for Go's JSON `nil`. -/
structure CommitData where
  kind : String
  projectId : String
  pageId : String
  parentId : Option String
  userId : String
  changes : List ChangeEntry
  freeze : Bool
  deriving Repr, DecidableEq

/-- What `PatchPage` does with the computed diff (websocket.go lines
262-280): an empty change list returns success immediately with nothing
sent; otherwise a commit is built with `parentId = page.CommitID`. -/
inductive PatchAction where
  | noop
  | send (commit : CommitData)
  deriving Repr, DecidableEq

/-- The commit `PatchPage` builds (websocket.go lines 271-280). -/
def buildPatchCommit (page : Page) (projectID userID : String)
    (changes : List Change) : CommitData :=
  { kind := "page", projectId := projectID, pageId := page.id,
    parentId := some page.commitID, userId := userID,
    changes := changes.map ChangeEntry.op, freeze := true }

/-- `PatchPage` up to the point where the frame would be sent
(websocket.go lines 256-280). -/
def patchPageCore (page : Page) (projectID userID : String)
    (newTexts : List String) (mint : Nat → String) : PatchAction :=
  let changes := diffToChanges page.lines newTexts mint
  if changes.length = 0 then PatchAction.noop
  else PatchAction.send (buildPatchCommit page projectID userID changes)

/-! ### Identifier generator (`userIDSuffix` and `createLineId`,
websocket.go lines 20-46) -/

/-- Hex conversion core, structurally recursive on a fuel bound: emits
the lowercase hex digits of `n`, most significant first. Any fuel of at
least the digit count of `n` gives the digits of `n`; `natToHex` passes
`n + 1`, which always suffices. -/
def natToHexCore : Nat → Nat → List Char
  | 0, _ => []
  | fuel + 1, n =>
      if n < 16 then [Nat.digitChar n]
      else natToHexCore fuel (n / 16) ++ [Nat.digitChar (n % 16)]

/-- The lowercase hexadecimal digits of `n`, most significant first. -/
def natToHex (n : Nat) : List Char := natToHexCore (n + 1) n

/-- `fmt.Sprintf("%08x", n)` (websocket.go line 32): lowercase hex,
left-padded with zeros to width at least 8. -/
def sprintf08x (n : Nat) : String :=
  ⟨List.replicate (8 - (natToHex n).length) '0' ++ natToHex n⟩

/-- `userIDSuffix` (websocket.go lines 20-25): the last 6 characters of
the user id, or the whole id when it is shorter. -/
def userIDSuffix (userID : String) : String :=
  if userID.length < 6 then userID
  else ⟨userID.toList.drop (userID.length - 6)⟩

/-- `hex.EncodeToString` on a byte slice: two lowercase hex digits per
byte, high nibble first. -/
def hexEncodeToString (bytes : List (Fin 256)) : String :=
  ⟨(bytes.map (fun b => [Nat.digitChar (b.val / 16), Nat.digitChar (b.val % 16)])).flatten⟩

/-- `createLineId(userID)` (websocket.go lines 30-46), with the clock
reading (`time.Now().Unix()`, whole seconds) and the 4 `crypto/rand`
bytes passed in explicitly: hex timestamp, user-id suffix, the fixed pad
`"0000"`, then the random hex. -/
def createLineId (now : Nat) (randomBytes : List (Fin 256)) (userID : String) :
    String :=
  sprintf08x now ++ userIDSuffix userID ++ "0000" ++ hexEncodeToString randomBytes

/-- The lowercase hexadecimal alphabet `0-9a-f`. -/
def isLowerHex (c : Char) : Bool := c.isDigit || ('a' ≤ c && c ≤ 'f')


/-! ### Connection state, packet framing, read loop and ack wait
(websocket.go lines 49-58, 152-180, 294-329, 429-461) -/

/-- The `WebSocketClient` mutable state the write path manipulates: the
liveness flag and the connection-scoped correlation counter `ackID`
(reset to 0 on connect, websocket.go line 104). -/
structure WSState where
  connected : Bool
  ackID : Nat
  deriving Repr, DecidableEq

/-- Decimal conversion core for `fmt.Sprintf`, structurally recursive on
a fuel bound: emits the decimal digits of `n`, most significant first.
`decRepr` passes `n + 1`, which always suffices. -/
def decReprCore : Nat → Nat → List Char
  | 0, _ => []
  | fuel + 1, n =>
      if n < 10 then [Nat.digitChar n]
      else decReprCore fuel (n / 10) ++ [Nat.digitChar (n % 10)]

/-- `fmt.Sprintf` of a (non-negative) integer in decimal: digits only,
no padding, no separator. -/
def decRepr (n : Nat) : List Char := decReprCore (n + 1) n

/-- Reads a decimal digit string back into a number (most significant
digit first). -/
def parseDec (l : List Char) : Nat :=
  l.foldl (fun acc c => acc * 10 + (c.toNat - 48)) 0

/-- Sending one commit request (websocket.go lines 295-299, identically
429-433): increment the connection-scoped counter, use the new value as
the correlation identifier, and frame the packet as `42<ackId><json>`.
Returns (state after, correlation id, packet). -/
def sendCommitPacket (s : WSState) (reqJSON : List Char) :
    WSState × Nat × List Char :=
  let ackID := s.ackID + 1
  ({ s with ackID := ackID }, ackID, ['4', '2'] ++ decRepr ackID ++ reqJSON)

/-- `sendCommitPacket` iterated over successive request payloads on one
connection; returns the final state and the (id, packet) pairs. -/
def sendAll (s : WSState) : List (List Char) → WSState × List (Nat × List Char)
  | [] => (s, [])
  | j :: js =>
      let r := sendCommitPacket s j
      let rest := sendAll r.1 js
      (rest.1, (r.2.1, r.2.2) :: rest.2)

/-- What the background read loop does with one inbound frame. -/
inductive HandlerAction where
  | skip
  | sendPong
  | deliverAck (msg : List Char)
  deriving Repr, DecidableEq

/-- One step of `messageHandler` (websocket.go lines 152-180): empty
frames are skipped, a frame whose first byte is the Engine.IO ping
marker `'2'` is answered with a pong, a frame starting with the
Socket.IO ACK marker pair `"43"` is delivered to the ack channel, and
every other frame is dropped. -/
def messageHandlerAction (msg : List Char) : HandlerAction :=
  if msg.length = 0 then HandlerAction.skip
  else if msg.getD 0 ' ' = '2' then HandlerAction.sendPong
  else if 2 ≤ msg.length ∧ msg.getD 0 ' ' = '4' ∧ msg.getD 1 ' ' = '3' then
    HandlerAction.deliverAck msg
  else HandlerAction.skip

/-- A decoded JSON value, as produced by `encoding/json.Unmarshal` into
a Go `interface` value. -/
inductive JVal where
  | jnull
  | jbool (b : Bool)
  | jnum (n : Int)
  | jstr (s : String)
  | jarr (elems : List JVal)
  | jobj (fields : List (String × JVal))

/-- `json.Marshal` string escaping for quote and backslash (Go also
escapes control and HTML characters; the payloads at issue here contain
neither). -/
def escapeChar (c : Char) : List Char :=
  if c = '"' then ['\\', '"']
  else if c = '\\' then ['\\', '\\']
  else [c]

mutual

/-- `json.Marshal` on a decoded JSON value (modelled; the only use is
re-serialising the remote error payload, websocket.go line 320). -/
def JVal.marshal : JVal → String
  | .jnull => "null"
  | .jbool true => "true"
  | .jbool false => "false"
  | .jnum n => toString n
  | .jstr s => "\"" ++ String.mk ((s.toList.map escapeChar).flatten) ++ "\""
  | .jarr xs => "[" ++ marshalElems xs ++ "]"
  | .jobj fs => "\x7b" ++ marshalFields fs ++ "\x7d"

/-- Comma-separated marshalling of array elements. -/
def marshalElems : List JVal → String
  | [] => ""
  | [x] => JVal.marshal x
  | x :: xs => JVal.marshal x ++ "," ++ marshalElems xs

/-- Comma-separated marshalling of object fields. -/
def marshalFields : List (String × JVal) → String
  | [] => ""
  | [(k, v)] => "\"" ++ k ++ "\":" ++ JVal.marshal v
  | (k, v) :: fs => "\"" ++ k ++ "\":" ++ JVal.marshal v ++ "," ++ marshalFields fs

end

/-- A decoded JSON object (one element of Go's
`[]map[string]interface` unmarshal target). -/
abbrev JObj := List (String × JVal)

/-- The result of `encoding/json.Unmarshal` into a slice of objects:
`none` models a parse error. The decoder itself is an external library
call, so it is a parameter of the embedding. -/
abbrev Unmarshal := List Char → Option (List JObj)

/-- Outcome of the ack wait in `PatchPage` / `CreatePage`. -/
inductive AckResult where
  | ok
  | commitError (message : String)
  | timeoutError
  deriving Repr, DecidableEq

/-- The scan for the JSON start (websocket.go lines 312-315): start at
offset 2 and skip the decimal ack-id digits. -/
def scanJsonStart (msg : List Char) : Nat :=
  2 + ((msg.drop 2).takeWhile Char.isDigit).length

/-- Processing of a delivered ACK frame, common to `PatchPage`
(websocket.go lines 308-326) and `WebSocketClient.CreatePage` (lines
442-458): a frame of at most 3 bytes, a payload that does not parse as
a JSON array of objects, and an empty array are all treated as success;
an `error` key in the first object becomes a Commit error carrying the
re-marshalled payload. -/
def processAck (msg : List Char) (unmarshal : Unmarshal) : AckResult :=
  if 3 < msg.length then
    if scanJsonStart msg < msg.length then
      match unmarshal (msg.drop (scanJsonStart msg)) with
      | some ackData =>
          match ackData with
          | [] => AckResult.ok
          | first :: _ =>
              match first.lookup "error" with
              | some errData =>
                  AckResult.commitError ("Commit error: " ++ errData.marshal)
              | none => AckResult.ok
      | none => AckResult.ok
    else AckResult.ok
  else AckResult.ok

/-- The correlation identifier carried by an ACK frame `43<id>[...]`
(the decimal digits following the marker pair). -/
def ackIdOf (msg : List Char) : Nat :=
  parseDec ((msg.drop 2).takeWhile Char.isDigit)

/-- The two arms of the `select` in `PatchPage` / `CreatePage`
(websocket.go lines 307-329): either the read loop delivers some ACK
frame, or the 30-second timer fires first. -/
inductive AckEvent where
  | received (msg : List Char)
  | timedOut
  deriving Repr, DecidableEq

/-- The wait bound: `time.After(30 * time.Second)`. -/
def ackTimeoutSeconds : Nat := 30

/-- The wait after the commit frame has been sent: a delivered frame is
processed by `processAck` — its correlation identifier is never compared
with the pending one — and the timer arm returns the timeout error;
neither arm modifies the connection state. -/
def afterSendAwait (s : WSState) (ev : AckEvent) (unmarshal : Unmarshal) :
    WSState × AckResult :=
  match ev with
  | AckEvent.received msg => (s, processAck msg unmarshal)
  | AckEvent.timedOut => (s, AckResult.timeoutError)

/-! ### Create-vs-patch dispatch (`Client.CreatePage` and
`WebSocketClient.CreatePage`, websocket.go lines 367-414 and 546-583) -/

/-- The dispatch `Client.CreatePage` performs after fetching the page. -/
inductive CreateAction where
  | patchExisting (page : Page) (projectID userID : String)
      (newTexts : List String)
  | createNew (pageID projectID userID title : String) (lines : List String)
  deriving Repr, DecidableEq

/-- The body-lines normalisation in `Client.CreatePage` (websocket.go
lines 556-559): a single argument containing a newline is split. -/
def splitBodyLines (bodyLines : List String) : List String :=
  match bodyLines with
  | [b] => if b.toList.contains '\n' then b.splitOn "\n" else bodyLines
  | _ => bodyLines

/-- `Client.CreatePage` (websocket.go lines 548-583): a page whose
fetched `commitId` is non-empty already exists, so the call falls back
to `PatchPage` with the new title as first line followed by the body
lines; only an empty `commitId` leads to `WebSocketClient.CreatePage`. -/
def clientCreatePage (existingPage : Page) (projectID userID title : String)
    (bodyLines : List String) : CreateAction :=
  let lines := splitBodyLines bodyLines
  if existingPage.commitID ≠ "" then
    CreateAction.patchExisting existingPage projectID userID (title :: lines)
  else
    CreateAction.createNew existingPage.id projectID userID title lines

/-- The commit built by `WebSocketClient.CreatePage` (websocket.go lines
367-414): the title line is minted first, each body line gets the next
minted identifier, and the commit carries `parentId = nil` plus a title
entry and a full lines snapshot. -/
def wsCreatePageCommit (pageID projectID userID title : String)
    (bodyLines : List String) (mint : Nat → String) : CommitData :=
  let allLines : List (String × String) :=
    (mint 0, title) :: bodyLines.enum.map (fun p => (mint (p.1 + 1), p.2))
  { kind := "page", projectId := projectID, pageId := pageID,
    parentId := none, userId := userID,
    changes := [ChangeEntry.titleEntry title, ChangeEntry.linesEntry allLines],
    freeze := true }

/-! ### Concrete inputs used by the witnesses -/

/-- The spec's scenario frame: ack marker `43`, correlation id 7, and a
one-object array whose first object has an `error` field. -/
def demoAckFrame : List Char := "437[\x7b\"error\":\"conflict\"\x7d]".toList

/-- A decoder defined at exactly the payload of `demoAckFrame`. -/
def demoUnmarshal : Unmarshal := fun s =>
  if s = "[\x7b\"error\":\"conflict\"\x7d]".toList then
    some [[("error", JVal.jstr "conflict")]]
  else none

/-- An ACK frame carrying correlation id 5 and an empty array payload. -/
def demoMismatchFrame : List Char := "435[]".toList

/-! ### Characterisation lemmas for the three diff passes -/

/-- The update emitted at index `i` by the first pass, if any: present
exactly when the texts differ, carrying the old line's id and the new
text. -/
def updateAt (oldLines : List Line) (newTexts : List String) (i : Nat) :
    Option Change :=
  if (oldLines.getD i default).text ≠ newTexts.getD i "" then
    some (Change.update (oldLines.getD i default).id (newTexts.getD i ""))
  else none

theorem updatePass_eq (oldLines : List Line) (newTexts : List String) :
    updatePass oldLines newTexts =
      (List.range (min oldLines.length newTexts.length)).filterMap
        (updateAt oldLines newTexts) := by
  induction oldLines generalizing newTexts with
  | nil => cases newTexts <;> simp [updatePass]
  | cons o os ih =>
      cases newTexts with
      | nil => simp [updatePass]
      | cons t ts =>
          have hcomp : updateAt (o :: os) (t :: ts) ∘ Nat.succ = updateAt os ts := by
            funext i
            simp [Function.comp_def, updateAt]
          have hmin : min (o :: os).length (t :: ts).length
              = min os.length ts.length + 1 := by
            simp [Nat.succ_min_succ]
          rw [hmin, List.range_succ_eq_map, List.filterMap_cons, List.filterMap_map,
            hcomp, ← ih]
          by_cases h : o.text = t
          · have h0 : updateAt (o :: os) (t :: ts) 0 = none := by
              simp [updateAt, h]
            rw [h0]
            simp [updatePass, h]
          · have h0 : updateAt (o :: os) (t :: ts) 0
                = some (Change.update o.id t) := by
              simp [updateAt, h]
            rw [h0]
            simp [updatePass, h]

theorem updatePass_all_updates (oldLines : List Line) (newTexts : List String) :
    ∀ c ∈ updatePass oldLines newTexts, c.isUpdate = true := by
  induction oldLines generalizing newTexts with
  | nil => cases newTexts <;> simp [updatePass]
  | cons o os ih =>
      cases newTexts with
      | nil => simp [updatePass]
      | cons t ts =>
          intro c hc
          rcases List.mem_append.mp hc with h | h
          · by_cases he : o.text = t
            · simp [he] at h
            · simp [he] at h
              simp [h, Change.isUpdate]
          · exact ih ts c h

theorem deletePass_all_deletes (oldLines : List Line) (newLen : Nat) :
    ∀ c ∈ deletePass oldLines newLen, c.isDelete = true := by
  intro c hc
  rcases List.mem_map.mp hc with ⟨l, _, rfl⟩
  rfl

theorem insertPass_all_inserts (mint : Nat → String) (ts : List String) :
    ∀ (anchor : String) (k : Nat), ∀ c ∈ insertPass mint anchor k ts,
      c.isInsert = true := by
  induction ts with
  | nil => intro anchor k c hc; simp [insertPass] at hc
  | cons t ts ih =>
      intro anchor k c hc
      rcases List.mem_cons.mp hc with rfl | h
      · rfl
      · exact ih (mint k) (k + 1) c h

theorem insertPass_eq (mint : Nat → String) (ts : List String) :
    ∀ (anchor : String) (k : Nat),
      insertPass mint anchor k ts =
        (List.range ts.length).map (fun j =>
          Change.insert (if j = 0 then anchor else mint (k + j - 1))
            (mint (k + j)) (ts.getD j "")) := by
  induction ts with
  | nil => intro anchor k; simp [insertPass]
  | cons t ts ih =>
      intro anchor k
      simp only [insertPass, List.length_cons, List.range_succ_eq_map,
        List.map_cons, List.map_map]
      refine List.cons_eq_cons.mpr ⟨by simp, ?_⟩
      rw [ih (mint k) (k + 1)]
      refine List.map_congr_left ?_
      intro j _
      rcases j with _ | j
      · simp
      · have h1 : k + 1 + (j + 1) - 1 = k + (j + 1 + 1) - 1 := by omega
        have h2 : k + 1 + (j + 1) = k + (j + 1 + 1) := by omega
        simp [Function.comp_def, h1, h2]

theorem deletePass_eq (oldLines : List Line) (newLen : Nat) :
    deletePass oldLines newLen =
      (List.range (oldLines.length - newLen)).map (fun k =>
        Change.delete ((oldLines.getD (oldLines.length - 1 - k) default).id)) := by
  have key : ∀ (i j : Nat) (hi : i < oldLines.length) (hj : j < oldLines.length),
      i = j → oldLines.get ⟨i, hi⟩ = oldLines.get ⟨j, hj⟩ := by
    intro i j hi hj hij
    subst hij
    rfl
  apply List.ext_get
  · simp [deletePass]
  · intro n h1 h2
    have hn : n < oldLines.length - newLen := by
      simpa [deletePass] using h1
    have hlt : oldLines.length - 1 - n < oldLines.length := by omega
    simp only [deletePass, List.get_eq_getElem, List.getElem_map,
      List.getElem_reverse, List.getElem_drop, List.getElem_range]
    rw [List.getD_eq_getElem?_getD, List.getElem?_eq_getElem hlt,
      Option.getD_some]
    have hb : newLen + ((oldLines.drop newLen).length - 1 - n)
        < oldLines.length := by
      simp only [List.length_drop]
      omega
    have := key (newLen + ((oldLines.drop newLen).length - 1 - n))
      (oldLines.length - 1 - n) hb hlt
      (by simp only [List.length_drop]; omega)
    simp only [List.get_eq_getElem] at this
    rw [this]

theorem getD_drop_texts (l : List String) (n j : Nat) :
    (l.drop n).getD j "" = l.getD (n + j) "" := by
  simp [List.getD_eq_getElem?_getD, List.getElem?_drop]

/-! ### Claims C1-C4 -/

/-- **C1.** When the new text sequence is strictly longer than the old
line sequence, `diffToChanges` emits exactly `newLen - oldLen` inserts,
in forward order over the extra new texts: the `j`-th insert carries the
`j`-th minted identifier and the text `newTexts[oldLen + j]`, and its
after-reference is the identifier minted for the previous insert, the
chain starting at the last old line's identifier (`""` when the old
sequence was empty) and ending at the last minted identifier. -/
theorem diff_insert_chain (oldLines : List Line) (newTexts : List String)
    (mint : Nat → String) (h : oldLines.length < newTexts.length) :
    ((diffToChanges oldLines newTexts mint).filter Change.isInsert).length
        = newTexts.length - oldLines.length ∧
    (diffToChanges oldLines newTexts mint).filter Change.isInsert =
      (List.range (newTexts.length - oldLines.length)).map (fun j =>
        Change.insert (if j = 0 then lastLineID oldLines else mint (j - 1))
          (mint j) (newTexts.getD (oldLines.length + j) "")) := by
  have hdel : deletePass oldLines newTexts.length = [] := by
    simp [deletePass, List.drop_eq_nil_of_le (Nat.le_of_lt h)]
  have hupd : (updatePass oldLines newTexts).filter Change.isInsert = [] := by
    refine List.filter_eq_nil_iff.mpr ?_
    intro c hc
    have := updatePass_all_updates oldLines newTexts c hc
    cases c <;> simp_all [Change.isUpdate, Change.isInsert]
  have hfil : (diffToChanges oldLines newTexts mint).filter Change.isInsert
      = insertPass mint (lastLineID oldLines) 0 (newTexts.drop oldLines.length) := by
    rw [diffToChanges, if_pos h, List.filter_append, List.filter_append,
      hupd, hdel]
    simp only [List.filter_nil, List.nil_append]
    exact List.filter_eq_self.mpr
      (insertPass_all_inserts mint (newTexts.drop oldLines.length)
        (lastLineID oldLines) 0)
  constructor
  · rw [hfil, insertPass_eq]
    simp [List.length_drop]
  · rw [hfil, insertPass_eq]
    simp only [List.length_drop]
    refine List.map_congr_left ?_
    intro j _
    simp [getD_drop_texts]

/-- Concrete application of `diff_insert_chain`: old `["a"]`, new
`["a","b","c"]` produce two chained inserts. -/
theorem diff_insert_chain_app :
    ((diffToChanges [⟨"a1", "a"⟩] ["a", "b", "c"]
        (fun k => "n" ++ Nat.repr k)).filter Change.isInsert).length = 2 :=
  (diff_insert_chain [⟨"a1", "a"⟩] ["a", "b", "c"]
    (fun k => "n" ++ Nat.repr k) (by decide)).1

/-- **C2.** When the old line sequence is strictly longer than the new
text sequence, `diffToChanges` emits exactly `oldLen - newLen` deletes,
targeting the identifiers of the extra old lines in descending index
order: the `k`-th delete targets `oldLines[oldLen - 1 - k].id`, from
index `oldLen - 1` down to index `newLen`. -/
theorem diff_delete_descending (oldLines : List Line) (newTexts : List String)
    (mint : Nat → String) (h : newTexts.length < oldLines.length) :
    ((diffToChanges oldLines newTexts mint).filter Change.isDelete).length
        = oldLines.length - newTexts.length ∧
    (diffToChanges oldLines newTexts mint).filter Change.isDelete =
      (List.range (oldLines.length - newTexts.length)).map (fun k =>
        Change.delete ((oldLines.getD (oldLines.length - 1 - k) default).id)) := by
  have hupd : (updatePass oldLines newTexts).filter Change.isDelete = [] := by
    refine List.filter_eq_nil_iff.mpr ?_
    intro c hc
    have := updatePass_all_updates oldLines newTexts c hc
    cases c <;> simp_all [Change.isUpdate, Change.isDelete]
  have hdel : (deletePass oldLines newTexts.length).filter Change.isDelete
      = deletePass oldLines newTexts.length :=
    List.filter_eq_self.mpr (deletePass_all_deletes oldLines newTexts.length)
  have hnoins : ¬ oldLines.length < newTexts.length := by omega
  constructor
  · simp only [diffToChanges, if_neg hnoins, List.filter_append, hupd, hdel,
      List.filter_nil, List.nil_append, List.append_nil]
    simp [deletePass, List.length_drop]
  · simp only [diffToChanges, if_neg hnoins, List.filter_append, hupd, hdel,
      List.filter_nil, List.nil_append, List.append_nil]
    exact deletePass_eq oldLines newTexts.length

/-- Concrete application of `diff_delete_descending`: old
`["a","b","c"]`, new `["a"]` produce deletes for `c1` then `b1`. -/
theorem diff_delete_descending_app :
    ((diffToChanges [⟨"a1", "a"⟩, ⟨"b1", "b"⟩, ⟨"c1", "c"⟩] ["a"]
        (fun k => "n" ++ Nat.repr k)).filter Change.isDelete).length = 2 :=
  (diff_delete_descending [⟨"a1", "a"⟩, ⟨"b1", "b"⟩, ⟨"c1", "c"⟩] ["a"]
    (fun k => "n" ++ Nat.repr k) (by decide)).1

/-- **C3.** For equal-length old and new sequences the whole change list
consists of updates only: exactly one per index whose texts differ, in
ascending index order, each carrying the old line's identifier and the
new text (this is what `updateAt` states index-wise). -/
theorem diff_equal_updates_only (oldLines : List Line) (newTexts : List String)
    (mint : Nat → String) (h : oldLines.length = newTexts.length) :
    diffToChanges oldLines newTexts mint =
      (List.range newTexts.length).filterMap (updateAt oldLines newTexts) ∧
    ∀ c ∈ diffToChanges oldLines newTexts mint, c.isUpdate = true := by
  have hdel : deletePass oldLines newTexts.length = [] := by
    simp [deletePass, List.drop_eq_nil_of_le (Nat.le_of_eq h)]
  have hnoins : ¬ oldLines.length < newTexts.length := by omega
  have hmain : diffToChanges oldLines newTexts mint
      = updatePass oldLines newTexts := by
    simp [diffToChanges, hdel, hnoins]
  constructor
  · rw [hmain, updatePass_eq, h, min_self]
  · rw [hmain]
    exact updatePass_all_updates oldLines newTexts

/-- Concrete application of `diff_equal_updates_only`: old `["a","b"]`,
new `["a","x"]` produce exactly one update, for `b1`. -/
theorem diff_equal_updates_only_app :
    diffToChanges [⟨"a1", "a"⟩, ⟨"b1", "b"⟩] ["a", "x"]
        (fun k => "n" ++ Nat.repr k) =
      (List.range 2).filterMap
        (updateAt [⟨"a1", "a"⟩, ⟨"b1", "b"⟩] ["a", "x"]) :=
  (diff_equal_updates_only [⟨"a1", "a"⟩, ⟨"b1", "b"⟩] ["a", "x"]
    (fun k => "n" ++ Nat.repr k) (by decide)).1

/-- **C4.** Diffing a page against its own texts (the empty/empty case
included) yields the empty change list, and `PatchPage` then returns
success without building or sending any commit. -/
theorem diff_idempotent_noop (page : Page) (projectID userID : String)
    (mint : Nat → String) :
    diffToChanges page.lines (page.lines.map Line.text) mint = [] ∧
    patchPageCore page projectID userID (page.lines.map Line.text) mint
      = PatchAction.noop := by
  have hupd : ∀ l : List Line, updatePass l (l.map Line.text) = [] := by
    intro l
    induction l with
    | nil => rfl
    | cons o os ih => simp [updatePass, ih]
  have hdiff : diffToChanges page.lines (page.lines.map Line.text) mint = [] := by
    simp [diffToChanges, hupd, deletePass, List.length_map, List.drop_length]
  exact ⟨hdiff, by simp [patchPageCore, hdiff]⟩


theorem length_mk (l : List Char) : (String.mk l).length = l.length := rfl

theorem digitChar_lower_hex (m : Nat) (hm : m < 16) :
    isLowerHex (Nat.digitChar m) = true := by
  interval_cases m <;> rfl

theorem natToHexCore_lower_hex (fuel : Nat) :
    ∀ n c, c ∈ natToHexCore fuel n → isLowerHex c = true := by
  induction fuel with
  | zero =>
      intro n c hc
      simp [natToHexCore] at hc
  | succ fuel ih =>
      intro n c hc
      by_cases h : n < 16
      · simp only [natToHexCore, if_pos h, List.mem_singleton] at hc
        subst hc
        exact digitChar_lower_hex n h
      · simp only [natToHexCore, if_neg h, List.mem_append,
          List.mem_singleton] at hc
        rcases hc with hc | hc
        · exact ih _ _ hc
        · subst hc
          exact digitChar_lower_hex _ (Nat.mod_lt _ (by norm_num))

theorem natToHexCore_length (fuel : Nat) :
    ∀ n k, n < 16 ^ (k + 1) → (natToHexCore fuel n).length ≤ k + 1 := by
  induction fuel with
  | zero =>
      intro n k _
      simp [natToHexCore]
  | succ fuel ih =>
      intro n k hn
      by_cases h : n < 16
      · simp [natToHexCore, h]
      · rcases k with _ | k
        · exact absurd hn (by simpa using h)
        · have hdiv : n / 16 < 16 ^ (k + 1) := by
            apply Nat.div_lt_of_lt_mul
            calc n < 16 ^ (k + 1 + 1) := hn
              _ = 16 * 16 ^ (k + 1) := by ring
          have htail := ih (n / 16) k hdiv
          simp only [natToHexCore, if_neg h, List.length_append,
            List.length_singleton]
          omega

theorem sprintf08x_length (n : Nat) (hn : n < 2 ^ 32) :
    (sprintf08x n).length = 8 := by
  have h16 : n < 16 ^ (7 + 1) := by
    have : (16 : Nat) ^ (7 + 1) = 2 ^ 32 := by norm_num
    omega
  have hlen : (natToHex n).length ≤ 8 := natToHexCore_length (n + 1) n 7 h16
  rw [sprintf08x, length_mk, List.length_append, List.length_replicate]
  omega

theorem sprintf08x_lower_hex (n : Nat) :
    ∀ c ∈ (sprintf08x n).toList, isLowerHex c = true := by
  intro c hc
  have hc' : c ∈ List.replicate (8 - (natToHex n).length) '0' ++ natToHex n := hc
  rcases List.mem_append.mp hc' with h | h
  · have := List.eq_of_mem_replicate h
    subst this
    rfl
  · exact natToHexCore_lower_hex (n + 1) n c h

theorem userIDSuffix_length (userID : String) (h : 6 ≤ userID.length) :
    (userIDSuffix userID).length = 6 := by
  have hdl : userID.toList.length = userID.length := rfl
  rw [userIDSuffix, if_neg (by omega), length_mk, List.length_drop]
  omega

theorem userIDSuffix_suffix (userID : String) :
    (userIDSuffix userID).toList <:+ userID.toList := by
  rw [userIDSuffix]
  by_cases h : userID.length < 6
  · rw [if_pos h]
  · rw [if_neg h]
    exact List.drop_suffix _ _

theorem flatten_pairs_length (bytes : List (Fin 256)) :
    ((bytes.map (fun b =>
        [Nat.digitChar (b.val / 16), Nat.digitChar (b.val % 16)])).flatten).length
      = 2 * bytes.length := by
  induction bytes with
  | nil => rfl
  | cons b bs ih =>
      simp only [List.map_cons, List.flatten_cons, List.length_append,
        List.length_cons, List.length_nil]
      omega

theorem hexEncodeToString_length (bytes : List (Fin 256)) :
    (hexEncodeToString bytes).length = 2 * bytes.length := by
  rw [hexEncodeToString, length_mk]
  exact flatten_pairs_length bytes

theorem hexEncodeToString_lower_hex (bytes : List (Fin 256)) :
    ∀ c ∈ (hexEncodeToString bytes).toList, isLowerHex c = true := by
  intro c hc
  have hc' : c ∈ (bytes.map (fun b =>
      [Nat.digitChar (b.val / 16), Nat.digitChar (b.val % 16)])).flatten := hc
  rcases List.mem_flatten.mp hc' with ⟨l, hl, hcl⟩
  rcases List.mem_map.mp hl with ⟨b, _, rfl⟩
  have hb := b.isLt
  rcases List.mem_cons.mp hcl with rfl | hcl
  · exact digitChar_lower_hex _ (by omega)
  · rcases List.mem_singleton.mp hcl with rfl
    exact digitChar_lower_hex _ (Nat.mod_lt _ (by norm_num))

/-! ### Claim C5 -/

/-- **C5 counterexample.** The claim states every generated identifier is
exactly 26 characters long, for every author identifier. For the
two-character author id `"ab"` the id is only 22 characters long: the
user-id part contributes `"ab"` (2 chars), not 6. -/
theorem createLineId_short_author :
    (createLineId 1700000000 [0, 0, 0, 0] "ab").length = 22 ∧
    ¬ (createLineId 1700000000 [0, 0, 0, 0] "ab").length = 26 := by
  constructor <;> decide

/-- **C5 (amended).** For author identifiers of at least 6 characters
(and a clock reading below `2^32`, which holds for the current epoch),
`createLineId` yields exactly 26 characters: an 8-character lowercase-hex
encoding of the time in whole seconds, the 6-character suffix of the
author id, the constant pad `"0000"`, and an 8-character lowercase-hex
encoding of the 4 random bytes. For shorter author ids the total is
`20 + length(userID)` instead. -/
theorem createLineId_format (now : Nat) (randomBytes : List (Fin 256))
    (userID : String) (hnow : now < 2 ^ 32) (hb : randomBytes.length = 4)
    (hu : 6 ≤ userID.length) :
    (createLineId now randomBytes userID).length = 26 ∧
    createLineId now randomBytes userID =
      sprintf08x now ++ userIDSuffix userID ++ "0000"
        ++ hexEncodeToString randomBytes ∧
    (sprintf08x now).length = 8 ∧
    (∀ c ∈ (sprintf08x now).toList, isLowerHex c = true) ∧
    (userIDSuffix userID).length = 6 ∧
    (userIDSuffix userID).toList <:+ userID.toList ∧
    (hexEncodeToString randomBytes).length = 8 ∧
    (∀ c ∈ (hexEncodeToString randomBytes).toList, isLowerHex c = true) := by
  have h1 := sprintf08x_length now hnow
  have h2 := userIDSuffix_length userID hu
  have h3 : (hexEncodeToString randomBytes).length = 8 := by
    rw [hexEncodeToString_length, hb]
  refine ⟨?_, rfl, h1, sprintf08x_lower_hex now, h2, userIDSuffix_suffix userID,
    h3, hexEncodeToString_lower_hex randomBytes⟩
  rw [createLineId, String.length_append, String.length_append,
    String.length_append, h1, h2, h3]
  rfl

/-- Concrete application of `createLineId_format` for a realistic
24-character author id. -/
theorem createLineId_format_app :
    (createLineId 1700000000 [18, 52, 171, 205]
        "5f1234567890abcdef123456").length = 26 :=
  (createLineId_format 1700000000 [18, 52, 171, 205]
    "5f1234567890abcdef123456" (by norm_num) (by decide) (by decide)).1

/-! ### Decimal framing lemmas -/

theorem digitChar_digit (m : Nat) (hm : m < 10) :
    (Nat.digitChar m).isDigit = true := by
  interval_cases m <;> rfl

theorem digitChar_toNat (m : Nat) (hm : m < 10) :
    (Nat.digitChar m).toNat - 48 = m := by
  interval_cases m <;> rfl

theorem decReprCore_digits (fuel : Nat) :
    ∀ n c, c ∈ decReprCore fuel n → c.isDigit = true := by
  induction fuel with
  | zero =>
      intro n c hc
      simp [decReprCore] at hc
  | succ fuel ih =>
      intro n c hc
      by_cases h : n < 10
      · simp only [decReprCore, if_pos h, List.mem_singleton] at hc
        subst hc
        exact digitChar_digit n h
      · simp only [decReprCore, if_neg h, List.mem_append,
          List.mem_singleton] at hc
        rcases hc with hc | hc
        · exact ih _ _ hc
        · subst hc
          exact digitChar_digit _ (Nat.mod_lt _ (by norm_num))

theorem decReprCore_ne_nil (fuel n : Nat) (h : 0 < fuel) :
    decReprCore fuel n ≠ [] := by
  rcases fuel with _ | fuel
  · omega
  · by_cases hn : n < 10
    · simp [decReprCore, hn]
    · simp [decReprCore, hn]

theorem headD_append_left (l m : List Char) (d : Char) (h : l ≠ []) :
    (l ++ m).headD d = l.headD d := by
  cases l with
  | nil => exact absurd rfl h
  | cons a l => rfl

theorem decReprCore_head_ne_zero (fuel : Nat) :
    ∀ n, n < fuel → 1 ≤ n → (decReprCore fuel n).headD ' ' ≠ '0' := by
  induction fuel with
  | zero =>
      intro n hn _
      omega
  | succ fuel ih =>
      intro n hn h1
      by_cases h : n < 10
      · simp only [decReprCore, if_pos h, List.headD_cons]
        interval_cases n <;> decide
      · have hdiv : n / 10 < n := Nat.div_lt_self (by omega) (by norm_num)
        have hne : decReprCore fuel (n / 10) ≠ [] :=
          decReprCore_ne_nil fuel (n / 10) (by omega)
        simp only [decReprCore, if_neg h]
        rw [headD_append_left _ _ _ hne]
        exact ih (n / 10) (by omega)
          ((Nat.one_le_div_iff (by norm_num)).mpr (by omega))

theorem parseDec_decReprCore (fuel : Nat) :
    ∀ n, n < fuel → parseDec (decReprCore fuel n) = n := by
  induction fuel with
  | zero =>
      intro n hn
      omega
  | succ fuel ih =>
      intro n hn
      by_cases h : n < 10
      · simp only [decReprCore, if_pos h, parseDec, List.foldl_cons,
          List.foldl_nil, Nat.zero_mul, Nat.zero_add]
        exact digitChar_toNat n h
      · have hdiv : n / 10 < n := Nat.div_lt_self (by omega) (by norm_num)
        have hmod := digitChar_toNat (n % 10) (Nat.mod_lt _ (by norm_num))
        have hrec := ih (n / 10) (by omega)
        simp only [parseDec] at hrec
        simp only [decReprCore, if_neg h, parseDec, List.foldl_append,
          List.foldl_cons, List.foldl_nil, hrec, hmod]
        omega

theorem parseDec_decRepr (n : Nat) : parseDec (decRepr n) = n :=
  parseDec_decReprCore (n + 1) n (Nat.lt_succ_self n)

theorem decRepr_digits (n : Nat) : ∀ c ∈ decRepr n, c.isDigit = true :=
  fun c hc => decReprCore_digits (n + 1) n c hc

theorem decRepr_head_ne_zero (n : Nat) (h : 1 ≤ n) :
    (decRepr n).headD ' ' ≠ '0' :=
  decReprCore_head_ne_zero (n + 1) n (Nat.lt_succ_self n) h

theorem takeWhile_append_all (p : Char → Bool) (l m : List Char)
    (hl : ∀ c ∈ l, p c = true) :
    (l ++ m).takeWhile p = l ++ m.takeWhile p := by
  induction l with
  | nil => simp
  | cons a l ih =>
      have ha : p a = true := hl a (List.mem_cons_self a l)
      have ih' := ih (fun c hc => hl c (List.mem_cons_of_mem a hc))
      simp [List.takeWhile_cons, ha, ih']

theorem takeWhile_isDigit_nil_of_bracket (m : List Char)
    (h : m.headD ' ' = '[') : m.takeWhile Char.isDigit = [] := by
  cases m with
  | nil => rfl
  | cons a m =>
      simp only [List.headD_cons] at h
      subst h
      rfl

theorem sendAll_ids (js : List (List Char)) :
    ∀ s : WSState, (sendAll s js).2.map Prod.fst
      = (List.range js.length).map (fun i => s.ackID + 1 + i) := by
  induction js with
  | nil =>
      intro s
      rfl
  | cons j js ih =>
      intro s
      simp only [sendAll, List.map_cons, List.length_cons,
        List.range_succ_eq_map, List.map_map]
      refine List.cons_eq_cons.mpr ⟨by simp [sendCommitPacket], ?_⟩
      rw [ih]
      refine List.map_congr_left ?_
      intro i _
      simp only [sendCommitPacket, Function.comp_def]
      omega

/-! ### Claim C7 -/

/-- **C7.** Every outbound commit request packet is the marker pair `42`
immediately followed by the correlation identifier in decimal — digits
only, no leading-zero padding, no separator before the JSON array
payload (which begins with a non-digit, `'['`) — and each successive
request on a connection receives the next value of the monotonically
increasing connection-scoped counter. -/
theorem commit_packet_format (s : WSState) (reqJSON : List Char)
    (js : List (List Char)) (hjson : reqJSON.headD ' ' = '[') :
    (sendCommitPacket s reqJSON).2.2
        = ['4', '2'] ++ decRepr (s.ackID + 1) ++ reqJSON ∧
    (sendCommitPacket s reqJSON).2.1 = s.ackID + 1 ∧
    (sendCommitPacket s reqJSON).1.ackID = s.ackID + 1 ∧
    ((sendCommitPacket s reqJSON).2.2.drop 2).takeWhile Char.isDigit
        = decRepr (s.ackID + 1) ∧
    parseDec (decRepr (s.ackID + 1)) = s.ackID + 1 ∧
    (decRepr (s.ackID + 1)).headD ' ' ≠ '0' ∧
    (sendAll s js).2.map Prod.fst
        = (List.range js.length).map (fun i => s.ackID + 1 + i) := by
  refine ⟨rfl, rfl, rfl, ?_, parseDec_decRepr _,
    decRepr_head_ne_zero _ (by omega), sendAll_ids js s⟩
  show ((['4', '2'] ++ decRepr (s.ackID + 1) ++ reqJSON).drop 2).takeWhile
      Char.isDigit = decRepr (s.ackID + 1)
  rw [List.append_assoc,
    show (['4', '2'] ++ (decRepr (s.ackID + 1) ++ reqJSON)).drop 2
      = decRepr (s.ackID + 1) ++ reqJSON from rfl,
    takeWhile_append_all _ _ _ (decRepr_digits _),
    takeWhile_isDigit_nil_of_bracket reqJSON hjson, List.append_nil]

/-- Concrete application of `commit_packet_format`. -/
theorem commit_packet_format_app :
    (sendCommitPacket ⟨true, 0⟩ ['[', ']']).2.2
      = ['4', '2'] ++ decRepr 1 ++ ['[', ']'] :=
  (commit_packet_format ⟨true, 0⟩ ['[', ']'] [] rfl).1

/-! ### Claim C6 -/

/-- **C6 counterexample.** A pending request with correlation id 7 is
released — with success — by an ACK frame carrying correlation id 5: the
wait consumes the first delivered ACK frame without ever comparing its
correlation identifier with the pending one, so it does not block until
"a reply frame matching the same correlation identifier" arrives. -/
theorem await_releases_on_mismatched_ack :
    ackIdOf demoMismatchFrame = 5 ∧
    (5 : Nat) ≠ 7 ∧
    afterSendAwait ⟨true, 7⟩ (AckEvent.received demoMismatchFrame)
        (fun _ => none) = (⟨true, 7⟩, AckResult.ok) :=
  ⟨rfl, by decide, rfl⟩

/-- **C6 (amended).** After a commit frame with correlation id `n` is
sent, the caller blocks until the read loop delivers an ACK frame — any
frame starting with the marker pair `43`; its correlation identifier is
not compared with `n` — or until the 30-second timer fires, in which
case a timeout error is returned. Both arms leave the connection state
(liveness flag and counter) unchanged, so the connection remains usable
for the next call. -/
theorem await_semantics (s : WSState) (u : Unmarshal) (msg : List Char) :
    afterSendAwait s AckEvent.timedOut u = (s, AckResult.timeoutError) ∧
    afterSendAwait s (AckEvent.received msg) u = (s, processAck msg u) ∧
    ackTimeoutSeconds = 30 ∧
    (messageHandlerAction msg = HandlerAction.deliverAck msg ↔
      2 ≤ msg.length ∧ msg.getD 0 ' ' = '4' ∧ msg.getD 1 ' ' = '3') := by
  refine ⟨rfl, rfl, rfl, ?_⟩
  constructor
  · intro h
    by_cases h0 : msg.length = 0
    · rw [messageHandlerAction, if_pos h0] at h
      exact absurd h (by simp)
    · by_cases h2 : msg.getD 0 ' ' = '2'
      · rw [messageHandlerAction, if_neg h0, if_pos h2] at h
        exact absurd h (by simp)
      · by_cases h43 : 2 ≤ msg.length ∧ msg.getD 0 ' ' = '4'
            ∧ msg.getD 1 ' ' = '3'
        · exact h43
        · rw [messageHandlerAction, if_neg h0, if_neg h2, if_neg h43] at h
          exact absurd h (by simp)
  · rintro ⟨hl, h4, h3⟩
    have h0 : ¬ msg.length = 0 := by omega
    have h2 : ¬ msg.getD 0 ' ' = '2' := by
      rw [h4]
      decide
    rw [messageHandlerAction, if_neg h0, if_neg h2, if_pos ⟨hl, h4, h3⟩]

/-! ### Claim C8 -/

/-- **C8.** Whenever the decoded acknowledgement array has a first
object containing an `error` field, the submitting call (`PatchPage` and
`CreatePage` share this code verbatim, embedded as `processAck`) returns
a Commit error whose message contains the re-marshalled remote payload;
when the first object has no `error` field the acknowledgement is
treated as success. -/
theorem ack_error_surfaced (msg : List Char) (u : Unmarshal) (first : JObj)
    (rest : List JObj) (hlen : 3 < msg.length)
    (hstart : scanJsonStart msg < msg.length)
    (hparse : u (msg.drop (scanJsonStart msg)) = some (first :: rest)) :
    (∀ e, first.lookup "error" = some e →
      processAck msg u
          = AckResult.commitError ("Commit error: " ++ JVal.marshal e) ∧
      (JVal.marshal e).toList <:+ ("Commit error: " ++ JVal.marshal e).toList) ∧
    (first.lookup "error" = none → processAck msg u = AckResult.ok) := by
  constructor
  · intro e he
    constructor
    · rw [processAck, if_pos hlen, if_pos hstart, hparse]
      simp [he]
    · have hsplit : ("Commit error: " ++ JVal.marshal e).toList
          = "Commit error: ".toList ++ (JVal.marshal e).toList := rfl
      rw [hsplit]
      exact List.suffix_append _ _
  · intro he
    rw [processAck, if_pos hlen, if_pos hstart, hparse]
    simp [he]

/-- Concrete application of `ack_error_surfaced` at the spec's scenario:
the frame `43 7 [obj]` whose first object maps `error` to `"conflict"`
surfaces as a Commit error containing `conflict`. -/
theorem ack_error_surfaced_app :
    processAck demoAckFrame demoUnmarshal
      = AckResult.commitError
          ("Commit error: " ++ JVal.marshal (JVal.jstr "conflict")) :=
  ((ack_error_surfaced demoAckFrame demoUnmarshal
      [("error", JVal.jstr "conflict")] [] (by decide) (by decide) rfl).1
    (JVal.jstr "conflict") rfl).1

/-! ### Claim C10 -/

/-- **C10.** Malformed acknowledgements are never surfaced as failures
(`PatchPage` and `CreatePage` share this code verbatim, embedded as
`processAck`): a frame of at most 3 bytes, a payload that fails to
decode as a JSON array of objects, and a payload decoding to an empty
array each produce success. -/
theorem malformed_ack_is_success (msg : List Char) (u : Unmarshal) :
    (msg.length ≤ 3 → processAck msg u = AckResult.ok) ∧
    (u (msg.drop (scanJsonStart msg)) = none →
      processAck msg u = AckResult.ok) ∧
    (u (msg.drop (scanJsonStart msg)) = some [] →
      processAck msg u = AckResult.ok) := by
  refine ⟨?_, ?_, ?_⟩
  · intro h
    rw [processAck, if_neg (by omega)]
  · intro h
    by_cases h1 : 3 < msg.length
    · by_cases h2 : scanJsonStart msg < msg.length
      · rw [processAck, if_pos h1, if_pos h2, h]
      · rw [processAck, if_pos h1, if_neg h2]
    · rw [processAck, if_neg h1]
  · intro h
    by_cases h1 : 3 < msg.length
    · by_cases h2 : scanJsonStart msg < msg.length
      · rw [processAck, if_pos h1, if_pos h2, h]
      · rw [processAck, if_pos h1, if_neg h2]
    · rw [processAck, if_neg h1]

/-- Concrete application of `malformed_ack_is_success`: the bare
two-byte frame `43` yields success. -/
theorem malformed_ack_is_success_app :
    processAck ['4', '3'] demoUnmarshal = AckResult.ok :=
  (malformed_ack_is_success ['4', '3'] demoUnmarshal).1 (by decide)

/-! ### Claim C9 -/

/-- **C9.** A non-empty fetched version token (`commitId`) makes
`Client.CreatePage` fall back to replacing the page content with the new
title as first line followed by the body lines — no creation commit is
built; only an empty token leads to `WebSocketClient.CreatePage`, whose
single commit carries `parentId = none` (expected-parent null) and the
full title-plus-lines snapshot. -/
theorem createPage_dispatch (page : Page) (projectID userID title : String)
    (bodyLines : List String) (mint : Nat → String) :
    (page.commitID ≠ "" →
      clientCreatePage page projectID userID title bodyLines =
        CreateAction.patchExisting page projectID userID
          (title :: splitBodyLines bodyLines)) ∧
    (page.commitID = "" →
      clientCreatePage page projectID userID title bodyLines =
        CreateAction.createNew page.id projectID userID title
          (splitBodyLines bodyLines) ∧
      (wsCreatePageCommit page.id projectID userID title
          (splitBodyLines bodyLines) mint).parentId = none ∧
      (wsCreatePageCommit page.id projectID userID title
          (splitBodyLines bodyLines) mint).changes =
        [ChangeEntry.titleEntry title,
         ChangeEntry.linesEntry ((mint 0, title) ::
           (splitBodyLines bodyLines).enum.map
             (fun p => (mint (p.1 + 1), p.2)))]) := by
  constructor
  · intro h
    simp [clientCreatePage, h]
  · intro h
    exact ⟨by simp [clientCreatePage, h], rfl, rfl⟩

/-- Concrete application of `createPage_dispatch`: an existing page
(non-empty commitId) is patched with the title as first line. -/
theorem createPage_dispatch_app :
    clientCreatePage ⟨"p1", "c1", []⟩ "proj" "user" "T" ["x"]
      = CreateAction.patchExisting ⟨"p1", "c1", []⟩ "proj" "user"
          ("T" :: splitBodyLines ["x"]) :=
  (createPage_dispatch ⟨"p1", "c1", []⟩ "proj" "user" "T" ["x"]
    (fun k => "n" ++ Nat.repr k)).1 (by decide)

end ScrapboxMCP
